import Mathlib

/-!
Shallow embedding of `src/plugins/rubot/scripts/responsive_audit.py`.

The script is a static rule-based auditor over text lines.  Pure Python
functions become Lean functions; the mutable `AuditResult` accumulator is
modelled by returning the list of violations each check appends (in append
order), so `result.add_violation` sequences become list concatenation in
program order.  Regular-expression searches are modelled by an explicit
backtracking matcher over `List Char` that mirrors each concrete pattern of
the source, including the engine's preference order (leftmost position,
greedy `*`/`+` longest-first, lazy `*?` shortest-first, alternation
left-first) and `re.findall`'s non-overlapping left-to-right scan.  Character
classes `\s`, `\d`, `\w` and `re.IGNORECASE` are modelled on ASCII.  File
discovery (`find_files`) touches the filesystem and is the external File
Walker collaborator: `run_audit` is parameterised by the list of paths the
walker yields and by a read function returning `none` on a read failure
(the `except Exception` path of `audit_file`).
-/

/-- Python whitespace for `str.split` / `str.strip` / regex `\s`
(ASCII model): space, tab, newline, carriage return, vertical tab, form feed. -/
def isSpaceC (c : Char) : Bool :=
  c = ' ' || c = '\t' || c = '\n' || c = '\r' || c = '\x0b' || c = '\x0c'

/-- Regex `\d`, modelled on ASCII digits. -/
def isDigitC (c : Char) : Bool := c.isDigit

/-- Regex word character, for `\b` word boundaries (ASCII model). -/
def isWordC (c : Char) : Bool := c.isAlphanum || c = '_'

/-- Boolean list-prefix test, used to model `str.startswith`. -/
def listPrefixB : List Char → List Char → Bool
  | [], _ => true
  | _ :: _, [] => false
  | a :: as, b :: bs => a == b && listPrefixB as bs

/-- Python `s.startswith(pre)`. -/
def startsWithStr (s pre : String) : Bool := listPrefixB pre.data s.data

/-- Python `s.strip()` (whitespace on both ends). -/
def pyStrip (s : String) : String :=
  String.mk (((s.data.dropWhile isSpaceC).reverse.dropWhile isSpaceC).reverse)

/-- Python slice `s[:n]`, counted in code points. -/
def pyTake (s : String) (n : Nat) : String := String.mk (s.data.take n)

/-- Python slice `s[n:]`, counted in code points. -/
def pyDrop (s : String) (n : Nat) : String := String.mk (s.data.drop n)

/-- Helper for `pySplit`: accumulates the current token reversed. -/
def pySplitAux : List Char → List Char → List String
  | [], cur => if cur.isEmpty then [] else [String.mk cur.reverse]
  | c :: cs, cur =>
    if isSpaceC c then
      if cur.isEmpty then pySplitAux cs []
      else String.mk cur.reverse :: pySplitAux cs []
    else pySplitAux cs (c :: cur)

/-- Python `str.split()` with no argument: split on whitespace runs and drop
empty pieces. -/
def pySplit (s : String) : List String := pySplitAux s.data []

/-- Python `list.index`: index of the first occurrence (the source only calls
it on members; absent elements give the length). -/
def pyIndex (a : String) : List String → Nat
  | [] => 0
  | b :: t => if b == a then 0 else pyIndex a t + 1

/-- Python `str.isdigit`, restricted to ASCII digits. -/
def pyIsDigit (s : String) : Bool := !s.data.isEmpty && s.data.all isDigitC

/-- Python `int()` on a decimal digit string. -/
def strToNat (s : String) : Nat :=
  s.data.foldl (fun n c => n * 10 + (c.toNat - '0'.toNat)) 0

/-! ### Regex matcher

A matcher consumes characters from the front of the input and returns the
possible remainders in the regex engine's backtracking preference order. -/

/-- Nondeterministic matcher: all possible remainders, preferred first. -/
abbrev M := List Char → List (List Char)

/-- Empty pattern. -/
def mEps : M := fun s => [s]

/-- Match one character of a class. -/
def mCls (p : Char → Bool) : M := fun s =>
  match s with
  | [] => []
  | c :: cs => if p c then [cs] else []

/-- Match a literal character sequence. -/
def mLit (t : List Char) : M := fun s =>
  if listPrefixB t s then [s.drop t.length] else []

/-- Case-insensitive list-prefix test (`re.IGNORECASE`, ASCII model). -/
def listPrefixCI : List Char → List Char → Bool
  | [], _ => true
  | _ :: _, [] => false
  | a :: as, b :: bs => a.toLower == b.toLower && listPrefixCI as bs

/-- Match a literal ignoring case. -/
def mLitCI (t : List Char) : M := fun s =>
  if listPrefixCI t s then [s.drop t.length] else []

/-- Sequencing, preserving preference order. -/
def mSeq (a b : M) : M := fun s => (a s).flatMap b

/-- Alternation, left alternative preferred. -/
def mAlt (a b : M) : M := fun s => a s ++ b s

/-- Greedy star over a character class (`[...]*`): longest first. -/
def mStarG (p : Char → Bool) : M := fun s =>
  let n := (s.takeWhile p).length
  (List.range (n + 1)).map (fun k => s.drop (n - k))

/-- Lazy star over a character class (`.*?`): shortest first. -/
def mStarL (p : Char → Bool) : M := fun s =>
  let n := (s.takeWhile p).length
  (List.range (n + 1)).map (fun k => s.drop k)

/-- Greedy plus over a character class (`\d+`). -/
def mPlusG (p : Char → Bool) : M := mSeq (mCls p) (mStarG p)

/-- Greedy optional character of a class (`["\']?`). -/
def mOpt (p : Char → Bool) : M := fun s => mCls p s ++ [s]

/-- Zero-width word boundary after a word character (the source's only
mid-pattern `\b`, after `\d+`): the next character must not be a word
character. -/
def mWordBnd : M := fun s =>
  match s with
  | [] => [[]]
  | c :: _ => if isWordC c then [] else [s]

/-- A word boundary holds at the start of a pattern beginning with a word
character exactly when the preceding character (if any) is not a word
character.  Every `\b`-initial pattern of the source begins with a word
character. -/
def boundaryOK : Option Char → Bool
  | none => true
  | some c => !isWordC c

/-- `re.search` as a Boolean: does the matcher succeed at some position?
`bnd` requires a word boundary at the match start (patterns beginning with
`\b`).  `prev` is the character before the current position; fuel is the
remaining length plus one. -/
def searchAux (m : M) (bnd : Bool) : Nat → Option Char → List Char → Bool
  | 0, _, _ => false
  | Nat.succ fuel, prev, s =>
    ((!bnd || boundaryOK prev) && !(m s).isEmpty) ||
      (match s with
       | [] => false
       | c :: cs => searchAux m bnd fuel (some c) cs)

/-- `re.search(pattern, line)` as a Boolean. -/
def searchM (m : M) (bnd : Bool) (line : String) : Bool :=
  searchAux m bnd (line.data.length + 1) none line.data

/-- Search for a `\b`-plus-literal pattern (`INVALID_BREAKPOINT_PATTERNS`
and the `\b{bp}:grid-cols-` probes all have this shape). -/
def searchBLit (t : String) (line : String) : Bool := searchM (mLit t.data) true line

/-- Run a sub-matcher and record the characters it consumed as the capture. -/
def runCap (g : M) : List Char → List (List Char × List Char) := fun s =>
  (g s).map (fun r => (s.take (s.length - r.length), r))

/-- A single-group regex `PRE(GRP)POST`, the shape of every `re.findall`
pattern in the source. -/
structure CPat where
  pre : M
  grp : M
  post : M

/-- All ways a single-group pattern matches at the head of the input, as
(captured group, remainder) pairs in preference order. -/
def cpatRun (p : CPat) : List Char → List (String × List Char) := fun s =>
  (p.pre s).flatMap (fun s1 =>
    (runCap p.grp s1).flatMap (fun cr =>
      (p.post cr.2).map (fun s3 => (String.mk cr.1, s3))))

/-- Character preceding the continuation point after a match (needed for the
next `\b` test), falling back to the previous one when nothing was consumed. -/
def prevAfter (prev : Option Char) (s rem : List Char) : Option Char :=
  match (s.take (s.length - rem.length)).getLast? with
  | some c => some c
  | none => prev

/-- `re.findall` scan: left to right, at each position take the engine's
preferred match if any, record (start position, captured group) and continue
after the match (non-overlapping); otherwise advance one character.  Every
pattern the source scans with consumes at least one character, so fuel
`length + 1` suffices. -/
def reFindAux (mt : List Char → List (String × List Char)) (bnd : Bool) :
    Nat → Nat → Option Char → List Char → List (Nat × String)
  | 0, _, _, _ => []
  | Nat.succ fuel, pos, prev, s =>
    if bnd && !boundaryOK prev then
      match s with
      | [] => []
      | c :: cs => reFindAux mt bnd fuel (pos + 1) (some c) cs
    else
      match mt s with
      | cr :: _ =>
        (pos, cr.1) ::
          reFindAux mt bnd fuel (pos + (s.length - cr.2.length)) (prevAfter prev s cr.2) cr.2
      | [] =>
        match s with
        | [] => []
        | c :: cs => reFindAux mt bnd fuel (pos + 1) (some c) cs

/-- `re.findall` with match start positions. -/
def reFindAllPos (p : CPat) (bnd : Bool) (line : String) : List (Nat × String) :=
  reFindAux (cpatRun p) bnd (line.data.length + 1) 0 none line.data

/-- `re.findall(pattern, line)` for a single-group pattern: the captured
groups, in scan order. -/
def reFindAll (p : CPat) (bnd : Bool) (line : String) : List String :=
  (reFindAllPos p bnd line).map Prod.snd

/-! ### Data model (`Severity`, `Category`, `Violation`, `AuditResult`) -/

inductive Severity
  | warning
  | critical
deriving DecidableEq, Repr

inductive Category
  | breakpoint_compliance
  | hardcoded_size
  | layout_antipattern
  | responsive_coverage
  | flex_grid_pattern
  | inline_style
deriving DecidableEq, Repr

structure Violation where
  file_path : String
  line_number : Nat
  category : Category
  severity : Severity
  rule : String
  snippet : String
  message : String
deriving DecidableEq, Repr

structure AuditResult where
  violations : List Violation
  files_scanned : Nat
deriving DecidableEq, Repr

/-- `AuditResult.total_violations`. -/
def total_violations (r : AuditResult) : Nat := r.violations.length

/-- `AuditResult.critical_count`. -/
def critical_count (r : AuditResult) : Nat :=
  r.violations.countP (fun v => v.severity == Severity.critical)

/-- `AuditResult.warning_count`. -/
def warning_count (r : AuditResult) : Nat :=
  r.violations.countP (fun v => v.severity == Severity.warning)

/-! ### Configuration constants -/

/-- `ALLOWED_BREAKPOINTS = {"sm", "md", "lg", "xl"}`.  A Python set; the
source only iterates it under order-insensitive `any(...)`, so a list
embedding is faithful. -/
def ALLOWED_BREAKPOINTS : List String := ["sm", "md", "lg", "xl"]

/-- `INVALID_BREAKPOINT_PATTERNS`: each entry models the regex `\bLIT`
(searched with `searchBLit`), with `\[` denoting a literal bracket. -/
def INVALID_BREAKPOINT_PATTERNS : List String :=
  ["2xl:", "3xl:", "xs:", "max-sm:", "max-md:", "max-lg:", "max-xl:", "max-2xl:",
   "min-[", "max-["]

/-- `BREAKPOINT_ORDER = ["sm", "md", "lg", "xl"]`. -/
def BREAKPOINT_ORDER : List String := ["sm", "md", "lg", "xl"]

/-- One `HARDCODED_PX_PATTERNS` regex `\bU\d+px\]` where `U` is the utility
prefix up to and including the opening bracket, e.g. `\bw-\[\d+px\]`. -/
def hpxSearch (u : String) (line : String) : Bool :=
  searchM (mSeq (mLit u.data) (mSeq (mPlusG isDigitC) (mLit "px]".data))) true line

/-- `HARDCODED_PX_PATTERNS`: (search, utility-family name) pairs. -/
def HARDCODED_PX_PATTERNS : List ((String → Bool) × String) :=
  [(hpxSearch "w-[", "w-[px]"), (hpxSearch "h-[", "h-[px]"),
   (hpxSearch "min-w-[", "min-w-[px]"), (hpxSearch "max-w-[", "max-w-[px]"),
   (hpxSearch "min-h-[", "min-h-[px]"), (hpxSearch "max-h-[", "max-h-[px]"),
   (hpxSearch "gap-[", "gap-[px]"), (hpxSearch "p-[", "p-[px]"),
   (hpxSearch "m-[", "m-[px]"), (hpxSearch "top-[", "top-[px]"),
   (hpxSearch "right-[", "right-[px]"), (hpxSearch "bottom-[", "bottom-[px]"),
   (hpxSearch "left-[", "left-[px]")]

/-- Regex class `["\']`. -/
def isQuoteC (c : Char) : Bool := c = '"' || c = '\x27'

/-- `style\s*=\s*["\'][^"\']*PROP\s*:\s*\d+px` (searched with IGNORECASE). -/
def inlinePxHtml (prop : String) : M :=
  mSeq (mLitCI "style".data) (mSeq (mStarG isSpaceC) (mSeq (mLit "=".data)
    (mSeq (mStarG isSpaceC) (mSeq (mCls isQuoteC) (mSeq (mStarG (fun c => !isQuoteC c))
      (mSeq (mLitCI prop.data) (mSeq (mStarG isSpaceC) (mSeq (mLit ":".data)
        (mSeq (mStarG isSpaceC) (mSeq (mPlusG isDigitC) (mLitCI "px".data)))))))))))

/-- `style\s*=\s*\{\s*\{[^}]*PROP\s*:\s*["\']?\d+px` (searched with
IGNORECASE). -/
def inlinePxJsx (prop : String) : M :=
  mSeq (mLitCI "style".data) (mSeq (mStarG isSpaceC) (mSeq (mLit "=".data)
    (mSeq (mStarG isSpaceC) (mSeq (mLit "\x7b".data) (mSeq (mStarG isSpaceC)
      (mSeq (mLit "\x7b".data) (mSeq (mStarG (fun c => c != '\x7d'))
        (mSeq (mLitCI prop.data) (mSeq (mStarG isSpaceC) (mSeq (mLit ":".data)
          (mSeq (mStarG isSpaceC) (mSeq (mOpt isQuoteC)
            (mSeq (mPlusG isDigitC) (mLitCI "px".data))))))))))))))

/-- `INLINE_STYLE_PX_PATTERNS`: width/height in markup-attribute style, then
width/height in object-literal style, in source order. -/
def INLINE_STYLE_PX_PATTERNS : List (String → Bool) :=
  [fun line => searchM (inlinePxHtml "width") false line,
   fun line => searchM (inlinePxHtml "height") false line,
   fun line => searchM (inlinePxJsx "width") false line,
   fun line => searchM (inlinePxJsx "height") false line]

/-- `GRID_COLS_PATTERN = r'\bgrid-cols-(\d+|\[.*?\])'`; the leading `\b` is
the `bnd` flag of the scan. -/
def GRID_COLS_RE : CPat :=
  { pre := mLit "grid-cols-".data
    grp := mAlt (mPlusG isDigitC)
      (mSeq (mLit "[".data) (mSeq (mStarL (fun c => c != '\n')) (mLit "]".data)))
    post := mEps }

/-- `r'\bgrid-cols-(\d+)\b'` from `check_flex_grid_patterns`. -/
def GRID_COLS_DIGIT_RE : CPat :=
  { pre := mLit "grid-cols-".data, grp := mPlusG isDigitC, post := mWordBnd }

/-- `r'\b(?:sm|md|lg|xl):grid-cols-(\d+)\b'` from `check_flex_grid_patterns`. -/
def RESP_GRID_COLS_DIGIT_RE : CPat :=
  { pre := mSeq (mAlt (mLit "sm".data) (mAlt (mLit "md".data)
      (mAlt (mLit "lg".data) (mLit "xl".data)))) (mLit ":grid-cols-".data)
    grp := mPlusG isDigitC
    post := mWordBnd }

/-! ### Token Extractor (`extract_class_strings`) -/

/-- Regex class used by the braced class pattern: backtick, quote, double
quote. -/
def isQuoteOrTickC (c : Char) : Bool := c = '\x60' || c = '\x27' || c = '"'

/-- `r'className\s*=\s*"([^"]*)"'`. -/
def CLASS_RE_1 : CPat :=
  { pre := mSeq (mLit "className".data) (mSeq (mStarG isSpaceC)
      (mSeq (mLit "=".data) (mSeq (mStarG isSpaceC) (mLit "\"".data))))
    grp := mStarG (fun c => c != '"')
    post := mLit "\"".data }

/-- `r"className\s*=\s*\'([^\']*)\'"` (single-quoted). -/
def CLASS_RE_2 : CPat :=
  { pre := mSeq (mLit "className".data) (mSeq (mStarG isSpaceC)
      (mSeq (mLit "=".data) (mSeq (mStarG isSpaceC) (mLit "\x27".data))))
    grp := mStarG (fun c => c != '\x27')
    post := mLit "\x27".data }

/-- `r'class\s*=\s*"([^"]*)"'`. -/
def CLASS_RE_3 : CPat :=
  { pre := mSeq (mLit "class".data) (mSeq (mStarG isSpaceC)
      (mSeq (mLit "=".data) (mSeq (mStarG isSpaceC) (mLit "\"".data))))
    grp := mStarG (fun c => c != '"')
    post := mLit "\"".data }

/-- `r"class\s*=\s*\'([^\']*)\'"` (single-quoted). -/
def CLASS_RE_4 : CPat :=
  { pre := mSeq (mLit "class".data) (mSeq (mStarG isSpaceC)
      (mSeq (mLit "=".data) (mSeq (mStarG isSpaceC) (mLit "\x27".data))))
    grp := mStarG (fun c => c != '\x27')
    post := mLit "\x27".data }

/-- `r'className\s*=\s*\{[`\'"]([^`\'"]*)[`\'"]\}'` (braced, any of backtick
/ quote / double quote). -/
def CLASS_RE_5 : CPat :=
  { pre := mSeq (mLit "className".data) (mSeq (mStarG isSpaceC)
      (mSeq (mLit "=".data) (mSeq (mStarG isSpaceC)
        (mSeq (mLit "\x7b".data) (mCls isQuoteOrTickC)))))
    grp := mStarG (fun c => !isQuoteOrTickC c)
    post := mSeq (mCls isQuoteOrTickC) (mLit "\x7d".data) }

/-- `r'className\s*=\s*\{`([^`]*)`\}'` (braced template literal). -/
def CLASS_RE_6 : CPat :=
  { pre := mSeq (mLit "className".data) (mSeq (mStarG isSpaceC)
      (mSeq (mLit "=".data) (mSeq (mStarG isSpaceC) (mLit "\x7b\x60".data))))
    grp := mStarG (fun c => c != '\x60')
    post := mLit "\x60\x7d".data }

/-- The source's `class_patterns` list, in order. -/
def CLASS_PATTERNS : List CPat :=
  [CLASS_RE_1, CLASS_RE_2, CLASS_RE_3, CLASS_RE_4, CLASS_RE_5, CLASS_RE_6]

/-- `extract_class_strings(content, line_num, line)`: for each pattern in
order, all findall captures on the line, concatenated (`classes.extend`).
The `content` and `line_num` parameters are unused by the source body. -/
def extract_class_strings (content : String) (line_num : Nat) (line : String) :
    List String :=
  CLASS_PATTERNS.flatMap (fun p => reFindAll p false line)

/-! ### Rule: breakpoint compliance -/

/-- `BREAKPOINT_ORDER.index(bp)`. -/
def rankOf (bp : String) : Nat := pyIndex bp BREAKPOINT_ORDER

/-- Entries `(utility, (bp, classes.index(cls)))` contributed by one class
token: the source tries every allowed breakpoint prefix. -/
def bpEntries (classes : List String) (cls : String) : List (String × String × Nat) :=
  BREAKPOINT_ORDER.filterMap (fun bp =>
    if startsWithStr cls (bp ++ ":") then
      some (pyDrop cls (bp.length + 1), bp, pyIndex cls classes)
    else none)

/-- All `(utility, (bp, pos))` entries in token order. -/
def allEntries (classes : List String) : List (String × String × Nat) :=
  classes.flatMap (bpEntries classes)

/-- Python dict update `utility_breakpoints[u].append(e)` with insertion
order: append to an existing key's list, else append a new key at the end. -/
def addEntry : List (String × List (String × Nat)) → String → String × Nat →
    List (String × List (String × Nat))
  | [], u, e => [(u, [e])]
  | (k, v) :: rest, u, e =>
    if k == u then (k, v ++ [e]) :: rest else (k, v) :: addEntry rest u e

/-- Build the insertion-ordered association list from a stream of entries. -/
def groupEntries (es : List (String × String × Nat)) :
    List (String × List (String × Nat)) :=
  es.foldl (fun m e => addEntry m e.1 e.2) []

/-- The source's `utility_breakpoints` dict for one class string. -/
def utility_breakpoints (classes : List String) :
    List (String × List (String × Nat)) :=
  groupEntries (allEntries classes)

/-- The source's per-utility scan: emit when some adjacent pair is ranked
descending while its recorded positions ascend (then `break`). -/
def bpInversionScan : List (String × Nat) → Bool
  | e1 :: e2 :: rest =>
    (rankOf e2.1 < rankOf e1.1 && e1.2 < e2.2) || bpInversionScan (e2 :: rest)
  | _ => false

/-- Message of a `breakpoint_order` violation. -/
def orderMsg (u : String) : String :=
  "Breakpoint order violation for \x27" ++ u ++
    "\x27. Use mobile-first order: sm -> md -> lg -> xl"

/-- Utilities for which `check_breakpoint_order` emits a warning, in dict
insertion order. -/
def orderWarnUtils (class_str : String) : List String :=
  (utility_breakpoints (pySplit class_str)).filterMap (fun p =>
    if decide (p.2.length > 1) && bpInversionScan p.2 then some p.1 else none)

/-- `check_breakpoint_order(class_str, line_num, file_path, line, result)`:
one Warning per utility whose recorded breakpoints violate the scan; `line`
is unused by the emission. -/
def check_breakpoint_order (class_str : String) (line_num : Nat)
    (file_path : String) (line : String) : List Violation :=
  (orderWarnUtils class_str).map (fun u =>
    { file_path := file_path, line_number := line_num,
      category := Category.breakpoint_compliance, severity := Severity.warning,
      rule := "breakpoint_order", snippet := pyTake class_str 80,
      message := orderMsg u })

/-- The `invalid_breakpoint` violation record. -/
def invalidBpViolation (line : String) (line_num : Nat) (file_path : String) :
    Violation :=
  { file_path := file_path, line_number := line_num,
    category := Category.breakpoint_compliance, severity := Severity.critical,
    rule := "invalid_breakpoint", snippet := pyTake (pyStrip line) 100,
    message := "Invalid breakpoint pattern detected. Only sm, md, lg, xl allowed." }

/-- `check_breakpoint_compliance`: one Critical per invalid pattern matching
the raw line, then the ordering check on each extracted class string. -/
def check_breakpoint_compliance (line : String) (line_num : Nat)
    (file_path : String) : List Violation :=
  (INVALID_BREAKPOINT_PATTERNS.filterMap (fun pat =>
    if searchBLit pat line then some (invalidBpViolation line line_num file_path)
    else none)) ++
  ((extract_class_strings "" line_num line).flatMap (fun cs =>
    check_breakpoint_order cs line_num file_path line))

/-! ### Rule: hardcoded sizes -/

/-- The `hardcoded_px_value` violation record. -/
def hardcodedPxViolation (line : String) (line_num : Nat) (file_path : String)
    (name : String) : Violation :=
  { file_path := file_path, line_number := line_num,
    category := Category.hardcoded_size, severity := Severity.warning,
    rule := "hardcoded_px_value", snippet := pyTake (pyStrip line) 100,
    message := "Hardcoded pixel value detected (" ++ name ++
      "). Use Tailwind scale tokens, %, rem, or em instead." }

/-- The `inline_style_px` violation record. -/
def inlinePxViolation (line : String) (line_num : Nat) (file_path : String) :
    Violation :=
  { file_path := file_path, line_number := line_num,
    category := Category.hardcoded_size, severity := Severity.critical,
    rule := "inline_style_px", snippet := pyTake (pyStrip line) 100,
    message := "Inline style with pixel value detected. Use Tailwind utilities instead." }

/-- `check_hardcoded_sizes`: one Warning per matching utility pattern, then
one Critical per matching inline-style pixel pattern (no break). -/
def check_hardcoded_sizes (line : String) (line_num : Nat) (file_path : String) :
    List Violation :=
  (HARDCODED_PX_PATTERNS.filterMap (fun pn =>
    if pn.1 line then some (hardcodedPxViolation line line_num file_path pn.2)
    else none)) ++
  (INLINE_STYLE_PX_PATTERNS.filterMap (fun p =>
    if p line then some (inlinePxViolation line line_num file_path) else none))

/-! ### Rule: layout anti-patterns -/

/-- `check_layout_antipatterns`: three per-token-group checks. -/
def check_layout_antipatterns (line : String) (line_num : Nat)
    (file_path : String) (content : String) : List Violation :=
  (extract_class_strings content line_num line).flatMap (fun class_str =>
    let classes := pySplit class_str
    let has_absolute := classes.contains "absolute"
    let has_fixed := classes.contains "fixed"
    let has_responsive_position := ALLOWED_BREAKPOINTS.any (fun bp =>
      classes.any (fun cls =>
        startsWithStr cls (bp ++ ":absolute") || startsWithStr cls (bp ++ ":fixed") ||
        startsWithStr cls (bp ++ ":relative") || startsWithStr cls (bp ++ ":static")))
    let v1 :=
      if (has_absolute || has_fixed) && !has_responsive_position then
        let position_utility := if has_absolute then "absolute" else "fixed"
        [{ file_path := file_path, line_number := line_num,
           category := Category.layout_antipattern, severity := Severity.warning,
           rule := "position_no_responsive", snippet := pyTake class_str 80,
           message := "\x27" ++ position_utility ++
             "\x27 used without responsive override. Consider adding breakpoint variants." }]
      else []
    let v2 :=
      if classes.contains "overflow-hidden" &&
          (["flex", "grid", "container", "mx-auto"].any (fun ind => classes.contains ind)) then
        [{ file_path := file_path, line_number := line_num,
           category := Category.layout_antipattern, severity := Severity.warning,
           rule := "overflow_hidden_layout", snippet := pyTake class_str 80,
           message := "\x27overflow-hidden\x27 on layout container may cause clipping issues." }]
      else []
    let v3 :=
      if classes.contains "h-screen" &&
          !(ALLOWED_BREAKPOINTS.any (fun bp =>
            classes.any (fun cls => startsWithStr cls (bp ++ ":h-")))) then
        [{ file_path := file_path, line_number := line_num,
           category := Category.layout_antipattern, severity := Severity.warning,
           rule := "h_screen_no_responsive", snippet := pyTake class_str 80,
           message := "\x27h-screen\x27 without breakpoint control may cause issues on mobile." }]
      else []
    v1 ++ v2 ++ v3)

/-! ### Rule: responsive coverage -/

/-- `re.findall(GRID_COLS_PATTERN, class_str)`. -/
def gridColsCaptures (class_str : String) : List String :=
  reFindAll GRID_COLS_RE true class_str

/-- `cols = int(match) if match.isdigit() else 2`. -/
def colsOf (m : String) : Nat := if pyIsDigit m then strToNat m else 2

/-- The `grid_cols_no_responsive` violation record for capture `m`. -/
def gridColsViolation (class_str : String) (line_num : Nat) (file_path : String)
    (m : String) : Violation :=
  { file_path := file_path, line_number := line_num,
    category := Category.responsive_coverage, severity := Severity.warning,
    rule := "grid_cols_no_responsive", snippet := pyTake class_str 80,
    message := "\x27grid-cols-" ++ m ++
      "\x27 without responsive variants. Consider: grid-cols-1 md:grid-cols-" ++ m }

/-- `has_responsive_grid`: `any(re.search(rf'\b{bp}:grid-cols-', class_str)
for bp in ALLOWED_BREAKPOINTS)`. -/
def hasResponsiveGrid (class_str : String) : Bool :=
  ALLOWED_BREAKPOINTS.any (fun bp => searchBLit (bp ++ ":grid-cols-") class_str)

/-- The per-token-group body of `check_responsive_coverage`: emit for the
first capture whose column count exceeds one when no responsive grid
variant exists (the loop breaks after the first emission). -/
def respCoverageGroup (class_str : String) (line_num : Nat) (file_path : String) :
    List Violation :=
  let ms := gridColsCaptures class_str
  if ms.isEmpty then []
  else
    match ms.find? (fun m => decide (colsOf m > 1) && !hasResponsiveGrid class_str) with
    | some m => [gridColsViolation class_str line_num file_path m]
    | none => []

/-- `check_responsive_coverage`. -/
def check_responsive_coverage (line : String) (line_num : Nat)
    (file_path : String) : List Violation :=
  (extract_class_strings "" line_num line).flatMap (fun cs =>
    respCoverageGroup cs line_num file_path)

/-! ### Rule: flex/grid patterns -/

/-- `check_flex_grid_patterns`. -/
def check_flex_grid_patterns (line : String) (line_num : Nat)
    (file_path : String) : List Violation :=
  (extract_class_strings "" line_num line).flatMap (fun class_str =>
    let classes := pySplit class_str
    let has_flex := classes.contains "flex"
    let has_flex_row := classes.contains "flex-row"
    let has_flex_col := classes.contains "flex-col"
    let has_responsive_flex_row := ALLOWED_BREAKPOINTS.any (fun bp =>
      classes.any (fun cls => startsWithStr cls (bp ++ ":flex-row")))
    let v1 :=
      if has_flex && has_flex_row && !has_flex_col && !has_responsive_flex_row then
        [{ file_path := file_path, line_number := line_num,
           category := Category.flex_grid_pattern, severity := Severity.warning,
           rule := "flex_row_no_base", snippet := pyTake class_str 80,
           message := "\x27flex-row\x27 without \x27flex-col\x27 base. Consider: flex flex-col md:flex-row" }]
      else []
    let grid_matches := reFindAll GRID_COLS_DIGIT_RE true class_str
    let responsive_grid_matches := reFindAll RESP_GRID_COLS_DIGIT_RE true class_str
    let v2 :=
      match grid_matches, responsive_grid_matches with
      | [cols], [] =>
        if strToNat cols > 2 then
          [{ file_path := file_path, line_number := line_num,
             category := Category.flex_grid_pattern, severity := Severity.warning,
             rule := "grid_no_escalation", snippet := pyTake class_str 80,
             message := "\x27grid-cols-" ++ cols ++
               "\x27 without breakpoint escalation. Consider: grid-cols-1 sm:grid-cols-2 md:grid-cols-" ++ cols }]
        else []
      | _, _ => []
    v1 ++ v2)

/-! ### Rule: inline styles -/

/-- Layout property list of the object-literal (JSX) inline-style check
(the source's first local `layout_props`). -/
def LAYOUT_PROPS_OBJ : List String :=
  ["width", "height", "display", "position", "flex", "grid", "margin", "padding"]

/-- Layout property list of the markup-attribute (HTML) inline-style check
(the source's second local `layout_props`). -/
def LAYOUT_PROPS_ATTR : List String :=
  ["width", "height", "display", "position", "flex", "grid"]

/-- `re.search(rf'{prop}\s*:', line, re.IGNORECASE)`. -/
def propColonSearch (prop : String) (line : String) : Bool :=
  searchM (mSeq (mLitCI prop.data) (mSeq (mStarG isSpaceC) (mLit ":".data))) false line

/-- `re.search(r'style\s*=\s*\{\s*\{', line)`. -/
def jsxStyleOpen (line : String) : Bool :=
  searchM (mSeq (mLit "style".data) (mSeq (mStarG isSpaceC) (mSeq (mLit "=".data)
    (mSeq (mStarG isSpaceC) (mSeq (mLit "\x7b".data)
      (mSeq (mStarG isSpaceC) (mLit "\x7b".data))))))) false line

/-- `re.search(r'style\s*=\s*["\']', line)`. -/
def htmlStyleOpen (line : String) : Bool :=
  searchM (mSeq (mLit "style".data) (mSeq (mStarG isSpaceC) (mSeq (mLit "=".data)
    (mSeq (mStarG isSpaceC) (mCls isQuoteC))))) false line

/-- `re.search(r'<style[^>]*>', line, re.IGNORECASE)`. -/
def styleBlockSearch (line : String) : Bool :=
  searchM (mSeq (mLitCI "<style".data) (mSeq (mStarG (fun c => c != '>'))
    (mLit ">".data))) false line

/-- `re.search(r'@media\s*\(', line)`. -/
def mediaQuerySearch (line : String) : Bool :=
  searchM (mSeq (mLit "@media".data) (mSeq (mStarG isSpaceC) (mLit "(".data))) false line

/-- The `inline_style_layout` violation for the first matching property. -/
def inlineStyleObjViolation (line : String) (line_num : Nat) (file_path : String)
    (prop : String) : Violation :=
  { file_path := file_path, line_number := line_num,
    category := Category.inline_style, severity := Severity.critical,
    rule := "inline_style_layout", snippet := pyTake (pyStrip line) 100,
    message := "Inline style with layout property \x27" ++ prop ++
      "\x27. Use Tailwind utilities instead." }

/-- The `inline_style_html` violation for the first matching property. -/
def inlineStyleAttrViolation (line : String) (line_num : Nat) (file_path : String)
    (prop : String) : Violation :=
  { file_path := file_path, line_number := line_num,
    category := Category.inline_style, severity := Severity.critical,
    rule := "inline_style_html", snippet := pyTake (pyStrip line) 100,
    message := "HTML inline style with layout property \x27" ++ prop ++
      "\x27. Use Tailwind utilities instead." }

/-- `check_inline_styles`: four independent per-line checks, in source
order; the property loops stop at the first matching property (`break`),
modelled by `find?`. -/
def check_inline_styles (line : String) (line_num : Nat) (file_path : String) :
    List Violation :=
  (if jsxStyleOpen line then
    match LAYOUT_PROPS_OBJ.find? (fun prop => propColonSearch prop line) with
    | some prop => [inlineStyleObjViolation line line_num file_path prop]
    | none => []
  else []) ++
  (if htmlStyleOpen line then
    match LAYOUT_PROPS_ATTR.find? (fun prop => propColonSearch prop line) with
    | some prop => [inlineStyleAttrViolation line line_num file_path prop]
    | none => []
  else []) ++
  (if styleBlockSearch line then
    [{ file_path := file_path, line_number := line_num,
       category := Category.inline_style, severity := Severity.warning,
       rule := "style_block", snippet := pyTake (pyStrip line) 100,
       message := "<style> block detected. Prefer Tailwind utilities for styling." }]
  else []) ++
  (if mediaQuerySearch line then
    [{ file_path := file_path, line_number := line_num,
       category := Category.inline_style, severity := Severity.critical,
       rule := "custom_media_query", snippet := pyTake (pyStrip line) 100,
       message := "Custom @media query detected. Use Tailwind breakpoint prefixes instead." }]
  else [])

/-! ### Audit Engine (`audit_file`, `run_audit`, exit status) -/

/-- All six checks on one non-skipped line, in source call order. -/
def auditLine (line : String) (line_num : Nat) (rel_path : String)
    (content : String) : List Violation :=
  check_breakpoint_compliance line line_num rel_path ++
  check_hardcoded_sizes line line_num rel_path ++
  check_layout_antipatterns line line_num rel_path content ++
  check_responsive_coverage line line_num rel_path ++
  check_flex_grid_patterns line line_num rel_path ++
  check_inline_styles line line_num rel_path

/-- Line skipping: blank after strip, or a `//` or `/*` comment start. -/
def skipLine (line : String) : Bool :=
  let stripped := pyStrip line
  stripped == "" || startsWithStr stripped "//" || startsWithStr stripped "/*"

/-- Helper for `pySplitLines`: accumulates the current line reversed. -/
def splitNlAux : List Char → List Char → List String
  | [], cur => [String.mk cur.reverse]
  | c :: cs, cur =>
    if c = '\n' then String.mk cur.reverse :: splitNlAux cs []
    else splitNlAux cs (c :: cur)

/-- Python `content.split("\n")`: split at every newline, keeping empty
pieces (an empty string gives one empty line). -/
def pySplitLines (s : String) : List String := splitNlAux s.data []

/-- `audit_file`: read (a failure yields nothing — the swallowed exception),
split on newlines, audit each non-skipped line with 1-based numbers. -/
def audit_file (file_path : String) (readContent : String → Option String) :
    List Violation :=
  match readContent file_path with
  | none => []
  | some content =>
    (pySplitLines content).enum.flatMap (fun il =>
      if skipLine il.2 then [] else auditLine il.2 (il.1 + 1) file_path content)

/-- `run_audit`, parameterised by the File Walker's yielded paths and the
read function: `files_scanned` is the number of yielded paths, set before
any file is audited. -/
def run_audit (files : List String) (readContent : String → Option String) :
    AuditResult :=
  { violations := files.flatMap (fun f => audit_file f readContent),
    files_scanned := files.length }

/-- The exit-status ladder at the end of `main`. -/
def exit_code (r : AuditResult) : Nat :=
  if critical_count r > 0 then 2 else if warning_count r > 0 then 1 else 0

/-! ### Sanity examples (spec section 8 test vectors) -/

example : orderWarnUtils "lg:flex sm:flex" = ["flex"] := by decide
example : orderWarnUtils "sm:flex md:flex lg:flex" = [] := by decide
example : extract_class_strings "" 1 "className=\"sm:flex\"" = ["sm:flex"] := by decide
example : searchBLit "2xl:" "<div className=\"2xl:hidden\">" = true := by decide
example : hpxSearch "w-[" "<div className=\"w-[240px]\">" = true := by decide
example : gridColsCaptures "grid-cols-4" = ["4"] := by decide
example : gridColsCaptures "grid-cols-[200px]" = ["[200px]"] := by decide
example : reFindAll GRID_COLS_DIGIT_RE true "grid-cols-4" = ["4"] := by decide
example : (check_inline_styles "<div style=\x7b\x7bwidth: \x27120px\x27\x7d\x7d>" 1 "f").map Violation.rule =
    ["inline_style_layout"] := by decide

/-! ### Shared counting and congruence lemmas -/

theorem countP_filterMap_emit {α β : Type} (l : List α) (c : α → Bool) (v : α → β)
    (q : β → Bool) (hq : ∀ a, q (v a) = true) :
    ((l.filterMap (fun a => if c a then some (v a) else none)).countP q) =
      (l.filter c).length := by
  induction l with
  | nil => rfl
  | cons a t ih =>
    by_cases h : c a
    · simp [List.filterMap_cons, h, List.countP_cons, hq, ih, List.filter_cons]
    · simp [List.filterMap_cons, h, ih, List.filter_cons]

theorem countP_eq_zero_of_all {α : Type} (l : List α) (q : α → Bool)
    (h : ∀ a ∈ l, q a = false) : l.countP q = 0 := by
  induction l with
  | nil => rfl
  | cons a t ih =>
    simp [List.countP_cons, h a (List.mem_cons_self a t),
      ih (fun b hb => h b (List.mem_cons_of_mem a hb))]

theorem flatMap_congr_mem {α β : Type} (l : List α) (f g : α → List β)
    (h : ∀ x ∈ l, f x = g x) : l.flatMap f = l.flatMap g := by
  induction l with
  | nil => rfl
  | cons a t ih =>
    simp only [List.flatMap_cons]
    rw [h a (List.mem_cons_self a t), ih (fun b hb => h b (List.mem_cons_of_mem a hb))]

/-! ### C1: exit-status contract -/

theorem counts_zero_iff_nil (l : List Violation) :
    (l.countP (fun v => v.severity == Severity.critical) = 0 ∧
     l.countP (fun v => v.severity == Severity.warning) = 0) ↔ l = [] := by
  induction l with
  | nil => simp
  | cons v t ih => cases hs : v.severity <;> simp [List.countP_cons, hs]

/-- C1: for every completed audit run the exit status is 2 exactly when the
result has at least one Critical violation, 1 exactly when it has no
Critical but at least one Warning, and 0 exactly when it has no violations
at all. -/
theorem c1_exit_status_contract (files : List String)
    (readContent : String → Option String) :
    (exit_code (run_audit files readContent) = 2 ↔
      0 < critical_count (run_audit files readContent)) ∧
    (exit_code (run_audit files readContent) = 1 ↔
      critical_count (run_audit files readContent) = 0 ∧
      0 < warning_count (run_audit files readContent)) ∧
    (exit_code (run_audit files readContent) = 0 ↔
      (run_audit files readContent).violations = []) := by
  set r := run_audit files readContent with hr
  unfold exit_code
  by_cases hc : 0 < critical_count r
  · have hne : r.violations ≠ [] := by
      intro hnil
      rw [critical_count, hnil] at hc
      simp at hc
    simp [hc, Nat.pos_iff_ne_zero.mp hc, hne]
  · by_cases hw : 0 < warning_count r
    · have hne : r.violations ≠ [] := by
        intro hnil
        rw [warning_count, hnil] at hw
        simp at hw
      simp [hc, hw, Nat.eq_zero_of_not_pos hc, hne]
    · have hc0 : critical_count r = 0 := Nat.eq_zero_of_not_pos hc
      have hw0 : warning_count r = 0 := Nat.eq_zero_of_not_pos hw
      have hnil : r.violations = [] := (counts_zero_iff_nil r.violations).mp ⟨hc0, hw0⟩
      simp [hc, hw, hnil, critical_count, warning_count, hc0, hw0]

/-! ### C2: files_scanned counts every walked path; unreadable files are inert -/

/-- C2: `files_scanned` equals the number of paths the walker yields,
including files whose read fails, and a file whose read fails contributes no
violations (the run returns normally). -/
theorem c2_files_scanned_and_read_failure (files : List String)
    (readContent : String → Option String) :
    (run_audit files readContent).files_scanned = files.length ∧
    ∀ f, readContent f = none → audit_file f readContent = [] := by
  refine ⟨rfl, fun f h => ?_⟩
  simp [audit_file, h]

/-- C2 witness: a two-file tree where every read fails is fully counted and
yields no violations. -/
theorem c2_witness :
    (run_audit ["a.tsx", "b.tsx"] (fun _ => none)).files_scanned = 2 ∧
    audit_file "a.tsx" (fun _ => none) = [] :=
  ⟨(c2_files_scanned_and_read_failure ["a.tsx", "b.tsx"] (fun _ => none)).1,
   (c2_files_scanned_and_read_failure ["a.tsx", "b.tsx"] (fun _ => none)).2 "a.tsx" rfl⟩

/-! ### C8: determinism of the engine -/

/-- C8: the engine is deterministic — two runs over the same walker output
whose reads agree on every yielded path produce identical Audit Results
(same violation sequence, same counts). -/
theorem c8_deterministic (files : List String)
    (read1 read2 : String → Option String)
    (h : ∀ f ∈ files, read1 f = read2 f) :
    run_audit files read1 = run_audit files read2 := by
  unfold run_audit
  have : files.flatMap (fun f => audit_file f read1) =
      files.flatMap (fun f => audit_file f read2) := by
    refine flatMap_congr_mem files _ _ (fun f hf => ?_)
    unfold audit_file
    rw [h f hf]
  rw [this]

/-- C8 witness: the determinism theorem applied to a concrete one-file tree. -/
theorem c8_witness :
    run_audit ["a.tsx"] (fun _ => some "@media (x)") =
      run_audit ["a.tsx"] (fun _ => some "@media (x)") :=
  c8_deterministic ["a.tsx"] _ _ (fun _ _ => rfl)

/-! ### C3: the two inline-style property lists -/

/-- C3 counterexample: `margin` triggers the object-literal check, but a
line carrying `margin` in markup-attribute style form triggers no
`inline_style_html` violation — the two checks do not use the same
property list. -/
theorem c3_property_lists_differ_cx :
    (check_inline_styles "style=\x7b\x7bmargin: 10\x7d\x7d" 1 "f").map
        (fun v => (v.rule, v.message)) =
      [("inline_style_layout",
        "Inline style with layout property \x27margin\x27. Use Tailwind utilities instead.")] ∧
    check_inline_styles "<div style=\"margin: 10px\">" 1 "f" = [] ∧
    "margin" ∈ LAYOUT_PROPS_OBJ ∧ "margin" ∉ LAYOUT_PROPS_ATTR := by
  refine ⟨by decide, by decide, by decide, by decide⟩

/-- C3 amended: the markup-attribute check's property list is a proper
initial segment of the object-literal check's list (which additionally
holds `margin` and `padding`); hence every property the markup-attribute
check can select is also recognisable by the object-literal check, but not
conversely. -/
theorem c3_attr_props_subset_obj_props :
    LAYOUT_PROPS_OBJ = LAYOUT_PROPS_ATTR ++ ["margin", "padding"] ∧
    ∀ (line prop : String),
      LAYOUT_PROPS_ATTR.find? (fun q => propColonSearch q line) = some prop →
        prop ∈ LAYOUT_PROPS_OBJ := by
  refine ⟨rfl, fun line prop h => ?_⟩
  have hm : prop ∈ LAYOUT_PROPS_ATTR := List.mem_of_find?_eq_some h
  simp only [LAYOUT_PROPS_ATTR, LAYOUT_PROPS_OBJ, List.mem_cons] at hm ⊢
  tauto

/-- C3 witness: the amended theorem applied to a concrete line on which the
markup-attribute check selects `width`. -/
theorem c3_attr_props_subset_obj_props_witness : "width" ∈ LAYOUT_PROPS_OBJ :=
  c3_attr_props_subset_obj_props.2 "width: 1" "width" (by decide)

/-! ### C4: inline-style pixel check fires per pattern, not per line -/

/-- C4 counterexample: a single line whose inline style sets both a pixel
width and a pixel height receives two Critical `inline_style_px`
violations, not one. -/
theorem c4_two_px_violations_cx :
    (check_hardcoded_sizes "<div style=\"width: 100px; height: 50px\">" 1 "f").countP
        (fun v => v.rule == "inline_style_px") = 2 ∧
    (check_hardcoded_sizes "<div style=\"width: 100px; height: 50px\">" 1 "f").countP
        (fun v => v.rule == "inline_style_px" && v.severity == Severity.critical) = 2 := by
  refine ⟨by decide, by decide⟩

/-- C4 amended: the inline-style pixel check emits one Critical with rule
`inline_style_px` per matching pattern of `INLINE_STYLE_PX_PATTERNS` (up to
four per line); in particular a line whose inline style sets both a pixel
width and a pixel height yields two such Criticals. -/
theorem c4_inline_px_count_per_pattern (line : String) (line_num : Nat)
    (file_path : String) :
    (check_hardcoded_sizes line line_num file_path).countP
        (fun v => v.rule == "inline_style_px") =
      (INLINE_STYLE_PX_PATTERNS.filter (fun p => p line)).length := by
  unfold check_hardcoded_sizes
  rw [List.countP_append]
  have h1 : (HARDCODED_PX_PATTERNS.filterMap (fun pn =>
      if pn.1 line then some (hardcodedPxViolation line line_num file_path pn.2)
      else none)).countP (fun v => v.rule == "inline_style_px") = 0 := by
    refine countP_eq_zero_of_all _ _ (fun v hv => ?_)
    rcases List.mem_filterMap.mp hv with ⟨pn, _, hpn⟩
    by_cases h : pn.1 line
    · rw [if_pos h] at hpn
      cases hpn
      rfl
    · rw [if_neg h] at hpn
      cases hpn
  have h2 : (INLINE_STYLE_PX_PATTERNS.filterMap (fun p =>
      if p line then some (inlinePxViolation line line_num file_path) else none)).countP
        (fun v => v.rule == "inline_style_px") =
      (INLINE_STYLE_PX_PATTERNS.filter (fun p => p line)).length :=
    countP_filterMap_emit _ _ _ _ (fun _ => rfl)
  rw [h1, h2, Nat.zero_add]

/-! ### C6: the legality check runs on the raw line, not on token groups -/

/-- C6 counterexample: the line `2xl:hidden` contains no extractable
class-value string, yet `check_breakpoint_compliance` emits one Critical
`invalid_breakpoint` violation for it. -/
theorem c6_raw_line_cx :
    extract_class_strings "" 1 "2xl:hidden" = [] ∧
    (check_breakpoint_compliance "2xl:hidden" 1 "f").countP
        (fun v => v.rule == "invalid_breakpoint") = 1 ∧
    (check_breakpoint_compliance "2xl:hidden" 1 "f").countP
        (fun v => v.rule == "invalid_breakpoint" && v.severity == Severity.critical) = 1 := by
  refine ⟨by decide, by decide, by decide⟩

/-- C6 amended: the breakpoint-legality sub-check is applied to the entire
raw line — one Critical `invalid_breakpoint` violation per disallowed
pattern matching anywhere in the line, independently of the extracted
token groups (which feed only the ordering sub-check). -/
theorem c6_invalid_breakpoint_on_raw_line (line : String) (line_num : Nat)
    (file_path : String) :
    (check_breakpoint_compliance line line_num file_path).countP
        (fun v => v.rule == "invalid_breakpoint") =
      (INVALID_BREAKPOINT_PATTERNS.filter (fun pat => searchBLit pat line)).length := by
  unfold check_breakpoint_compliance
  rw [List.countP_append]
  have h1 : (INVALID_BREAKPOINT_PATTERNS.filterMap (fun pat =>
      if searchBLit pat line then some (invalidBpViolation line line_num file_path)
      else none)).countP (fun v => v.rule == "invalid_breakpoint") =
      (INVALID_BREAKPOINT_PATTERNS.filter (fun pat => searchBLit pat line)).length :=
    countP_filterMap_emit _ _ _ _ (fun _ => rfl)
  have h2 : ((extract_class_strings "" line_num line).flatMap (fun cs =>
      check_breakpoint_order cs line_num file_path line)).countP
        (fun v => v.rule == "invalid_breakpoint") = 0 := by
    refine countP_eq_zero_of_all _ _ (fun v hv => ?_)
    rcases List.mem_flatMap.mp hv with ⟨cs, _, hcs⟩
    rcases List.mem_map.mp hcs with ⟨u, _, hu⟩
    cases hu
    rfl
  rw [h1, h2, Nat.add_zero]

/-! ### C9: the rule string determines the category -/

/-- Rule-to-category mapping realised by the source's emission sites: every
`add_violation` call constructs one of these pairs. -/
def ruleCat (r : String) : Option Category :=
  if r == "invalid_breakpoint" || r == "breakpoint_order" then
    some Category.breakpoint_compliance
  else if r == "hardcoded_px_value" || r == "inline_style_px" then
    some Category.hardcoded_size
  else if r == "position_no_responsive" || r == "overflow_hidden_layout" ||
      r == "h_screen_no_responsive" then some Category.layout_antipattern
  else if r == "grid_cols_no_responsive" then some Category.responsive_coverage
  else if r == "flex_row_no_base" || r == "grid_no_escalation" then
    some Category.flex_grid_pattern
  else if r == "inline_style_layout" || r == "inline_style_html" ||
      r == "style_block" || r == "custom_media_query" then some Category.inline_style
  else none

theorem ruleCat_check_breakpoint_compliance (line : String) (n : Nat) (fp : String) :
    ∀ v ∈ check_breakpoint_compliance line n fp, ruleCat v.rule = some v.category := by
  intro v hv
  unfold check_breakpoint_compliance at hv
  rcases List.mem_append.mp hv with h | h
  · rcases List.mem_filterMap.mp h with ⟨pat, _, hpat⟩
    by_cases hc : searchBLit pat line
    · rw [if_pos hc] at hpat
      cases hpat
      rfl
    · rw [if_neg hc] at hpat
      cases hpat
  · rcases List.mem_flatMap.mp h with ⟨cs, _, hcs⟩
    rcases List.mem_map.mp hcs with ⟨u, _, hu⟩
    cases hu
    rfl

theorem ruleCat_check_hardcoded_sizes (line : String) (n : Nat) (fp : String) :
    ∀ v ∈ check_hardcoded_sizes line n fp, ruleCat v.rule = some v.category := by
  intro v hv
  unfold check_hardcoded_sizes at hv
  rcases List.mem_append.mp hv with h | h
  · rcases List.mem_filterMap.mp h with ⟨pn, _, hpn⟩
    by_cases hc : pn.1 line
    · rw [if_pos hc] at hpn
      cases hpn
      rfl
    · rw [if_neg hc] at hpn
      cases hpn
  · rcases List.mem_filterMap.mp h with ⟨p, _, hp⟩
    by_cases hc : p line
    · rw [if_pos hc] at hp
      cases hp
      rfl
    · rw [if_neg hc] at hp
      cases hp

theorem ruleCat_check_layout_antipatterns (line : String) (n : Nat) (fp : String)
    (content : String) :
    ∀ v ∈ check_layout_antipatterns line n fp content,
      ruleCat v.rule = some v.category := by
  intro v hv
  unfold check_layout_antipatterns at hv
  rcases List.mem_flatMap.mp hv with ⟨cs, _, h⟩
  simp only [List.mem_append] at h
  rcases h with (h | h) | h <;> split at h <;>
    first
      | exact absurd h (List.not_mem_nil v)
      | (rcases List.mem_singleton.mp h with rfl; rfl)

theorem ruleCat_check_responsive_coverage (line : String) (n : Nat) (fp : String) :
    ∀ v ∈ check_responsive_coverage line n fp, ruleCat v.rule = some v.category := by
  intro v hv
  unfold check_responsive_coverage at hv
  rcases List.mem_flatMap.mp hv with ⟨cs, _, h⟩
  simp only [respCoverageGroup] at h
  split at h
  · exact absurd h (List.not_mem_nil v)
  · split at h
    · rcases List.mem_singleton.mp h with rfl
      rfl
    · exact absurd h (List.not_mem_nil v)

theorem ruleCat_check_flex_grid_patterns (line : String) (n : Nat) (fp : String) :
    ∀ v ∈ check_flex_grid_patterns line n fp, ruleCat v.rule = some v.category := by
  intro v hv
  unfold check_flex_grid_patterns at hv
  rcases List.mem_flatMap.mp hv with ⟨cs, _, h⟩
  simp only [List.mem_append] at h
  rcases h with h | h
  · split at h
    · rcases List.mem_singleton.mp h with rfl
      rfl
    · exact absurd h (List.not_mem_nil v)
  · split at h
    · split at h
      · rcases List.mem_singleton.mp h with rfl
        rfl
      · exact absurd h (List.not_mem_nil v)
    · exact absurd h (List.not_mem_nil v)

theorem ruleCat_check_inline_styles (line : String) (n : Nat) (fp : String) :
    ∀ v ∈ check_inline_styles line n fp, ruleCat v.rule = some v.category := by
  intro v hv
  unfold check_inline_styles at hv
  simp only [List.mem_append] at hv
  rcases hv with ((h | h) | h) | h <;> split at h <;>
    first
      | exact absurd h (List.not_mem_nil v)
      | (rcases List.mem_singleton.mp h with rfl; rfl)
      | (split at h
         · rcases List.mem_singleton.mp h with rfl
           rfl
         · exact absurd h (List.not_mem_nil v))

theorem ruleCat_auditLine (line : String) (n : Nat) (fp : String) (content : String) :
    ∀ v ∈ auditLine line n fp content, ruleCat v.rule = some v.category := by
  intro v hv
  unfold auditLine at hv
  simp only [List.mem_append] at hv
  rcases hv with ((((h | h) | h) | h) | h) | h
  · exact ruleCat_check_breakpoint_compliance line n fp v h
  · exact ruleCat_check_hardcoded_sizes line n fp v h
  · exact ruleCat_check_layout_antipatterns line n fp content v h
  · exact ruleCat_check_responsive_coverage line n fp v h
  · exact ruleCat_check_flex_grid_patterns line n fp v h
  · exact ruleCat_check_inline_styles line n fp v h

theorem ruleCat_run_audit (files : List String)
    (readContent : String → Option String) :
    ∀ v ∈ (run_audit files readContent).violations,
      ruleCat v.rule = some v.category := by
  intro v hv
  rcases List.mem_flatMap.mp hv with ⟨f, _, hf⟩
  unfold audit_file at hf
  rcases hread : readContent f with _ | content
  · rw [hread] at hf
    exact absurd hf (List.not_mem_nil v)
  · rw [hread] at hf
    rcases List.mem_flatMap.mp hf with ⟨il, _, h⟩
    split at h
    · exact absurd h (List.not_mem_nil v)
    · exact ruleCat_auditLine il.2 (il.1 + 1) f content v h

/-- C9: for every pair of violations emitted by any run, equal rule strings
imply equal categories — the rule identifier uniquely determines the
category. -/
theorem c9_rule_determines_category (files : List String)
    (readContent : String → Option String) (v w : Violation)
    (hv : v ∈ (run_audit files readContent).violations)
    (hw : w ∈ (run_audit files readContent).violations)
    (hr : v.rule = w.rule) : v.category = w.category := by
  have h1 := ruleCat_run_audit files readContent v hv
  have h2 := ruleCat_run_audit files readContent w hw
  rw [hr, h2] at h1
  exact (Option.some.inj h1).symm

/-- C9 witness: the theorem applied to a concrete run that emits a
`custom_media_query` violation. -/
theorem c9_witness :
    ({ file_path := "a.tsx", line_number := 1, category := Category.inline_style,
       severity := Severity.critical, rule := "custom_media_query",
       snippet := "@media (x)",
       message := "Custom @media query detected. Use Tailwind breakpoint prefixes instead." } :
      Violation).category = Category.inline_style :=
  c9_rule_determines_category ["a.tsx"] (fun _ => some "@media (x)") _
    { file_path := "a.tsx", line_number := 1, category := Category.inline_style,
      severity := Severity.critical, rule := "custom_media_query",
      snippet := "@media (x)",
      message := "Custom @media query detected. Use Tailwind breakpoint prefixes instead." }
    (by decide) (by decide) rfl

/-! ### C10: non-numeric arbitrary grid-cols values count as two columns -/

/-- C10: in a token group holding a `grid-cols-[...]` capture that is not a
digit string, with no breakpoint-prefixed grid-cols utility and no numeric
column count above one, the coverage check treats the non-numeric capture's
column count as 2 and emits exactly one `grid_cols_no_responsive` Warning
(for the first such capture). -/
theorem c10_arbitrary_grid_cols (class_str : String) (line_num : Nat)
    (file_path : String)
    (hnr : ∀ bp ∈ ALLOWED_BREAKPOINTS, searchBLit (bp ++ ":grid-cols-") class_str = false)
    (hnd : ∃ m ∈ gridColsCaptures class_str, pyIsDigit m = false)
    (hdig : ∀ m ∈ gridColsCaptures class_str, pyIsDigit m = true → strToNat m ≤ 1) :
    ∃ m ∈ gridColsCaptures class_str, pyIsDigit m = false ∧ colsOf m = 2 ∧
      respCoverageGroup class_str line_num file_path =
        [gridColsViolation class_str line_num file_path m] := by
  obtain ⟨m0, hm0, hm0d⟩ := hnd
  have hrg : hasResponsiveGrid class_str = false := by
    unfold hasResponsiveGrid
    rw [List.any_eq_false]
    intro bp hbp
    simp [hnr bp hbp]
  have hPm0 : (decide (colsOf m0 > 1) && !hasResponsiveGrid class_str) = true := by
    simp [colsOf, hm0d, hrg]
  have hs : ((gridColsCaptures class_str).find?
      (fun m => decide (colsOf m > 1) && !hasResponsiveGrid class_str)).isSome :=
    List.find?_isSome.mpr ⟨m0, hm0, hPm0⟩
  obtain ⟨m, hm⟩ := Option.isSome_iff_exists.mp hs
  have hmem : m ∈ gridColsCaptures class_str := List.mem_of_find?_eq_some hm
  have hPt : (decide (colsOf m > 1) && !hasResponsiveGrid class_str) = true := by
    have h0 := List.find?_some hm
    simpa using h0
  have hmnd : pyIsDigit m = false := by
    cases hd : pyIsDigit m
    · rfl
    · exfalso
      have hle := hdig m hmem hd
      rw [Bool.and_eq_true] at hPt
      have := of_decide_eq_true hPt.1
      rw [colsOf, if_pos hd] at this
      omega
  have hcols : colsOf m = 2 := by simp [colsOf, hmnd]
  refine ⟨m, hmem, hmnd, hcols, ?_⟩
  have hieq : (gridColsCaptures class_str).isEmpty = false := by
    cases hgc : gridColsCaptures class_str
    · rw [hgc] at hmem
      exact absurd hmem (List.not_mem_nil m)
    · rfl
  simp only [respCoverageGroup, hieq, Bool.false_eq_true, if_false, hm]

/-- C10 witness: the theorem applied to the token group `grid-cols-[200px]`. -/
theorem c10_witness :
    ∃ m ∈ gridColsCaptures "grid-cols-[200px]", pyIsDigit m = false ∧
      colsOf m = 2 ∧
      respCoverageGroup "grid-cols-[200px]" 1 "f" =
        [gridColsViolation "grid-cols-[200px]" 1 "f" m] :=
  c10_arbitrary_grid_cols "grid-cols-[200px]" 1 "f" (by decide)
    ⟨"[200px]", by decide, by decide⟩ (by decide)

/-! ### C5: extractor ordering — matcher length lemmas -/

theorem listPrefixB_length {t s : List Char} (h : listPrefixB t s = true) :
    t.length ≤ s.length := by
  induction t generalizing s with
  | nil => simp
  | cons a as ih =>
    cases s with
    | nil => simp [listPrefixB] at h
    | cons b bs =>
      simp only [listPrefixB, Bool.and_eq_true] at h
      simpa using Nat.succ_le_succ (ih h.2)

theorem listPrefixCI_length {t s : List Char} (h : listPrefixCI t s = true) :
    t.length ≤ s.length := by
  induction t generalizing s with
  | nil => simp
  | cons a as ih =>
    cases s with
    | nil => simp [listPrefixCI] at h
    | cons b bs =>
      simp only [listPrefixCI, Bool.and_eq_true] at h
      simpa using Nat.succ_le_succ (ih h.2)

theorem len_mCls {p : Char → Bool} {s r : List Char} (h : r ∈ mCls p s) :
    r.length < s.length := by
  unfold mCls at h
  cases s with
  | nil => exact absurd h (List.not_mem_nil r)
  | cons c cs =>
    have h2 : r ∈ (if p c = true then [cs] else ([] : List (List Char))) := h
    by_cases hp : p c = true
    · rw [if_pos hp] at h2
      rcases List.mem_singleton.mp h2 with rfl
      simp
    · rw [if_neg hp] at h2
      exact absurd h2 (List.not_mem_nil r)

theorem len_mLit_le {t s r : List Char} (h : r ∈ mLit t s) :
    r.length ≤ s.length := by
  simp only [mLit] at h
  split at h
  · rcases List.mem_singleton.mp h with rfl
    simp [List.length_drop]
  · exact absurd h (List.not_mem_nil r)

theorem len_mLit_lt {t s r : List Char} (ht : t ≠ []) (h : r ∈ mLit t s) :
    r.length < s.length := by
  by_cases hc : listPrefixB t s = true
  · simp only [mLit, if_pos hc] at h
    rcases List.mem_singleton.mp h with rfl
    have hl := listPrefixB_length hc
    have h1 : 1 ≤ t.length := by
      cases t with
      | nil => exact absurd rfl ht
      | cons a as => simp
    simp only [List.length_drop]
    omega
  · simp only [mLit, if_neg hc] at h
    exact absurd h (List.not_mem_nil r)

theorem len_mLitCI_le {t s r : List Char} (h : r ∈ mLitCI t s) :
    r.length ≤ s.length := by
  simp only [mLitCI] at h
  split at h
  · rcases List.mem_singleton.mp h with rfl
    simp [List.length_drop]
  · exact absurd h (List.not_mem_nil r)

theorem len_mStarG_le {p : Char → Bool} {s r : List Char} (h : r ∈ mStarG p s) :
    r.length ≤ s.length := by
  simp only [mStarG] at h
  rcases List.mem_map.mp h with ⟨k, _, rfl⟩
  simp [List.length_drop]

theorem len_mStarL_le {p : Char → Bool} {s r : List Char} (h : r ∈ mStarL p s) :
    r.length ≤ s.length := by
  simp only [mStarL] at h
  rcases List.mem_map.mp h with ⟨k, _, rfl⟩
  simp [List.length_drop]

theorem len_mEps_le {s r : List Char} (h : r ∈ mEps s) : r.length ≤ s.length := by
  rcases List.mem_singleton.mp h with rfl
  exact Nat.le_refl _

theorem len_mWordBnd_le {s r : List Char} (h : r ∈ mWordBnd s) :
    r.length ≤ s.length := by
  unfold mWordBnd at h
  cases s with
  | nil =>
    rcases List.mem_singleton.mp h with rfl
    exact Nat.le_refl _
  | cons c cs =>
    have h2 : r ∈ (if isWordC c = true then ([] : List (List Char)) else [c :: cs]) := h
    by_cases hw : isWordC c = true
    · rw [if_pos hw] at h2
      exact absurd h2 (List.not_mem_nil r)
    · rw [if_neg hw] at h2
      rcases List.mem_singleton.mp h2 with rfl
      exact Nat.le_refl _

theorem len_mOpt_le {p : Char → Bool} {s r : List Char} (h : r ∈ mOpt p s) :
    r.length ≤ s.length := by
  unfold mOpt at h
  rcases List.mem_append.mp h with h | h
  · exact Nat.le_of_lt (len_mCls h)
  · rcases List.mem_singleton.mp h with rfl
    exact Nat.le_refl _

theorem len_mSeq_lt_le {a b : M}
    (ha : ∀ s r, r ∈ a s → r.length < s.length)
    (hb : ∀ s r, r ∈ b s → r.length ≤ s.length) :
    ∀ s r, r ∈ mSeq a b s → r.length < s.length := by
  intro s r h
  rcases List.mem_flatMap.mp h with ⟨r1, h1, h2⟩
  exact Nat.lt_of_le_of_lt (hb r1 r h2) (ha s r1 h1)

theorem len_mSeq_le_le {a b : M}
    (ha : ∀ s r, r ∈ a s → r.length ≤ s.length)
    (hb : ∀ s r, r ∈ b s → r.length ≤ s.length) :
    ∀ s r, r ∈ mSeq a b s → r.length ≤ s.length := by
  intro s r h
  rcases List.mem_flatMap.mp h with ⟨r1, h1, h2⟩
  exact Nat.le_trans (hb r1 r h2) (ha s r1 h1)

theorem len_mAlt_le {a b : M}
    (ha : ∀ s r, r ∈ a s → r.length ≤ s.length)
    (hb : ∀ s r, r ∈ b s → r.length ≤ s.length) :
    ∀ s r, r ∈ mAlt a b s → r.length ≤ s.length := by
  intro s r h
  rcases List.mem_append.mp h with h | h
  · exact ha s r h
  · exact hb s r h

theorem cpat_strict {p : CPat}
    (hpre : ∀ s r, r ∈ p.pre s → r.length < s.length)
    (hg : ∀ s r, r ∈ p.grp s → r.length ≤ s.length)
    (hpost : ∀ s r, r ∈ p.post s → r.length ≤ s.length) :
    ∀ s cr, cr ∈ cpatRun p s → cr.2.length < s.length := by
  intro s cr h
  unfold cpatRun at h
  rcases List.mem_flatMap.mp h with ⟨s1, h1, h2⟩
  rcases List.mem_flatMap.mp h2 with ⟨cr2, h3, h4⟩
  rcases List.mem_map.mp h4 with ⟨s3, h5, rfl⟩
  have hg2 : cr2.2 ∈ p.grp s1 := by
    unfold runCap at h3
    rcases List.mem_map.mp h3 with ⟨r, hr, rfl⟩
    exact hr
  show s3.length < s.length
  calc s3.length ≤ cr2.2.length := hpost _ _ h5
    _ ≤ s1.length := hg _ _ hg2
    _ < s.length := hpre _ _ h1

/-- Strictness of a pattern starting with a nonempty literal followed by a
length-nonincreasing tail. -/
theorem litSeq_strict (t : List Char) (ht : t ≠ []) (rest : M)
    (hrest : ∀ s r, r ∈ rest s → r.length ≤ s.length) :
    ∀ s r, r ∈ mSeq (mLit t) rest s → r.length < s.length :=
  len_mSeq_lt_le (fun _ _ h => len_mLit_lt ht h) hrest

/-- Tail of the quoted class patterns: `\s*=\s*Q`. -/
theorem quoteRest_le (q : List Char) :
    ∀ s r, r ∈ mSeq (mStarG isSpaceC) (mSeq (mLit "=".data)
      (mSeq (mStarG isSpaceC) (mLit q))) s → r.length ≤ s.length :=
  len_mSeq_le_le (fun _ _ h => len_mStarG_le h)
    (len_mSeq_le_le (fun _ _ h => len_mLit_le h)
      (len_mSeq_le_le (fun _ _ h => len_mStarG_le h) (fun _ _ h => len_mLit_le h)))

/-- Tail of the braced-quoted class pattern: `\s*=\s*\{Q`. -/
theorem bracedRest_le :
    ∀ s r, r ∈ mSeq (mStarG isSpaceC) (mSeq (mLit "=".data)
      (mSeq (mStarG isSpaceC) (mSeq (mLit "\x7b".data) (mCls isQuoteOrTickC)))) s →
      r.length ≤ s.length :=
  len_mSeq_le_le (fun _ _ h => len_mStarG_le h)
    (len_mSeq_le_le (fun _ _ h => len_mLit_le h)
      (len_mSeq_le_le (fun _ _ h => len_mStarG_le h)
        (len_mSeq_le_le (fun _ _ h => len_mLit_le h)
          (fun _ _ h => Nat.le_of_lt (len_mCls h)))))

/-- Unfolding equation of `reFindAux` at a successor fuel value. -/
theorem reFindAux_succ (mt : List Char → List (String × List Char)) (bnd : Bool)
    (fuel pos : Nat) (prev : Option Char) (s : List Char) :
    reFindAux mt bnd (fuel + 1) pos prev s =
      if bnd && !boundaryOK prev then
        match s with
        | [] => []
        | c :: cs => reFindAux mt bnd fuel (pos + 1) (some c) cs
      else
        match mt s with
        | cr :: _ =>
          (pos, cr.1) ::
            reFindAux mt bnd fuel (pos + (s.length - cr.2.length))
              (prevAfter prev s cr.2) cr.2
        | [] =>
          match s with
          | [] => []
          | c :: cs => reFindAux mt bnd fuel (pos + 1) (some c) cs := rfl

/-- Positions recorded by the findall scan are lower-bounded by the start
position and strictly increase, whenever the pattern always consumes at
least one character. -/
theorem reFindAux_pos_facts (mt : List Char → List (String × List Char))
    (bnd : Bool) (hmt : ∀ s cr, cr ∈ mt s → cr.2.length < s.length) :
    ∀ (fuel pos : Nat) (prev : Option Char) (s : List Char),
      (∀ e ∈ reFindAux mt bnd fuel pos prev s, pos ≤ e.1) ∧
      List.Chain' (fun a b : Nat × String => a.1 < b.1)
        (reFindAux mt bnd fuel pos prev s) := by
  intro fuel
  induction fuel with
  | zero =>
    intro pos prev s
    exact ⟨fun e he => absurd he (List.not_mem_nil e), List.chain'_nil⟩
  | succ fuel ih =>
    intro pos prev s
    have hone : ∀ cr : String × List Char, cr ∈ mt s →
        (∀ e ∈ (pos, cr.1) ::
            reFindAux mt bnd fuel (pos + (s.length - cr.2.length))
              (prevAfter prev s cr.2) cr.2, pos ≤ e.1) ∧
          List.Chain' (fun a b : Nat × String => a.1 < b.1)
            ((pos, cr.1) ::
              reFindAux mt bnd fuel (pos + (s.length - cr.2.length))
                (prevAfter prev s cr.2) cr.2) := by
      intro cr hcr
      have hlt : cr.2.length < s.length := hmt s cr hcr
      have hstep : pos + 1 ≤ pos + (s.length - cr.2.length) := by omega
      have hrec := ih (pos + (s.length - cr.2.length)) (prevAfter prev s cr.2) cr.2
      constructor
      · intro e he
        rcases List.mem_cons.mp he with rfl | he2
        · exact Nat.le_refl _
        · exact Nat.le_trans (Nat.le_trans (Nat.le_succ pos) hstep) (hrec.1 e he2)
      · cases hr2 : reFindAux mt bnd fuel (pos + (s.length - cr.2.length))
            (prevAfter prev s cr.2) cr.2 with
        | nil => simp
        | cons e es =>
          rw [List.chain'_cons]
          constructor
          · have hle : pos + (s.length - cr.2.length) ≤ e.1 :=
              hrec.1 e (by rw [hr2]; exact List.mem_cons_self e es)
            show pos < e.1
            omega
          · rw [← hr2]
            exact hrec.2
    have hskip : ∀ (c : Char) (cs : List Char),
        (∀ e ∈ reFindAux mt bnd fuel (pos + 1) (some c) cs, pos ≤ e.1) ∧
          List.Chain' (fun a b : Nat × String => a.1 < b.1)
            (reFindAux mt bnd fuel (pos + 1) (some c) cs) :=
      fun c cs =>
        ⟨fun e he => Nat.le_trans (Nat.le_succ pos) ((ih (pos + 1) (some c) cs).1 e he),
         (ih (pos + 1) (some c) cs).2⟩
    rw [reFindAux_succ]
    by_cases hb : (bnd && !boundaryOK prev) = true
    · rw [if_pos hb]
      cases s with
      | nil => exact ⟨fun e he => absurd he (List.not_mem_nil e), List.chain'_nil⟩
      | cons c cs => exact hskip c cs
    · rw [if_neg hb]
      cases hc : mt s with
      | nil =>
        cases s with
        | nil => exact ⟨fun e he => absurd he (List.not_mem_nil e), List.chain'_nil⟩
        | cons c cs => exact hskip c cs
      | cons cr t =>
        exact hone cr (by rw [hc]; exact List.mem_cons_self cr t)

/-- C5 counterexample: on a line mixing the `class` and `className`
conventions the extractor returns the `className` match first even though
the `class` match occurs earlier in the line (position 0 versus 10) — the
output is not in left-to-right order of occurrence. -/
theorem c5_order_cx :
    extract_class_strings "" 1 "class=\"a\" className=\"b\"" = ["b", "a"] ∧
    reFindAllPos CLASS_RE_1 false "class=\"a\" className=\"b\"" = [(10, "b")] ∧
    reFindAllPos CLASS_RE_3 false "class=\"a\" className=\"b\"" = [(0, "a")] := by
  refine ⟨by decide, by decide, by decide⟩

/-- C5 amended: the extractor returns, for each recognised convention in
the fixed pattern order (`className` double-quoted, `className`
single-quoted, `class` double-quoted, `class` single-quoted, braced-quoted,
braced template literal), all of that convention's matches in left-to-right
order of occurrence, concatenated per convention — not globally
left-to-right across conventions. -/
theorem c5_grouped_by_convention :
    (∀ (content : String) (line_num : Nat) (line : String),
      extract_class_strings content line_num line =
        CLASS_PATTERNS.flatMap (fun p => (reFindAllPos p false line).map Prod.snd)) ∧
    (∀ p ∈ CLASS_PATTERNS, ∀ line : String,
      List.Chain' (fun a b : Nat × String => a.1 < b.1) (reFindAllPos p false line)) := by
  refine ⟨fun _ _ _ => rfl, ?_⟩
  intro p hp line
  have hstrict : ∀ s cr, cr ∈ cpatRun p s → cr.2.length < s.length := by
    simp only [CLASS_PATTERNS, List.mem_cons, List.not_mem_nil, or_false] at hp
    rcases hp with rfl | rfl | rfl | rfl | rfl | rfl
    · exact cpat_strict (litSeq_strict "className".data (by decide) _ (quoteRest_le "\"".data))
        (fun _ _ h => len_mStarG_le h) (fun _ _ h => len_mLit_le h)
    · exact cpat_strict (litSeq_strict "className".data (by decide) _ (quoteRest_le "\x27".data))
        (fun _ _ h => len_mStarG_le h) (fun _ _ h => len_mLit_le h)
    · exact cpat_strict (litSeq_strict "class".data (by decide) _ (quoteRest_le "\"".data))
        (fun _ _ h => len_mStarG_le h) (fun _ _ h => len_mLit_le h)
    · exact cpat_strict (litSeq_strict "class".data (by decide) _ (quoteRest_le "\x27".data))
        (fun _ _ h => len_mStarG_le h) (fun _ _ h => len_mLit_le h)
    · exact cpat_strict (litSeq_strict "className".data (by decide) _ bracedRest_le)
        (fun _ _ h => len_mStarG_le h)
        (len_mSeq_le_le (fun _ _ h => Nat.le_of_lt (len_mCls h))
          (fun _ _ h => len_mLit_le h))
    · exact cpat_strict (litSeq_strict "className".data (by decide) _
          (quoteRest_le "\x7b\x60".data))
        (fun _ _ h => len_mStarG_le h) (fun _ _ h => len_mLit_le h)
  exact (reFindAux_pos_facts (cpatRun p) false hstrict _ 0 none line.data).2

/-- C5 witness: the per-convention ordering applied to a concrete pattern
and line with two matches of the same convention. -/
theorem c5_witness :
    List.Chain' (fun a b : Nat × String => a.1 < b.1)
      (reFindAllPos CLASS_RE_1 false "className=\"a\" className=\"b\"") :=
  c5_grouped_by_convention.2 CLASS_RE_1 (by simp [CLASS_PATTERNS])
    "className=\"a\" className=\"b\""

/-! ### C7: breakpoint-order warnings — dictionary machinery -/

/-- Injectivity of `String.mk` on the underlying character list. -/
theorem string_data_inj {x y : String} (h : x.data = y.data) : x = y := by
  cases x
  cases y
  exact congrArg String.mk (by simpa using h)

/-- Value of a key in the insertion-ordered association list ([] if absent). -/
def lookupVal : List (String × List (String × Nat)) → String → List (String × Nat)
  | [], _ => []
  | (k, v) :: rest, w => if k == w then v else lookupVal rest w

/-- The entries of the stream carrying a given key, in order. -/
def valuesFor (w : String) (es : List (String × String × Nat)) : List (String × Nat) :=
  es.filterMap (fun e => if e.1 == w then some e.2 else none)

theorem addEntry_keys (m : List (String × List (String × Nat))) (u : String)
    (e : String × Nat) :
    (addEntry m u e).map Prod.fst =
      if m.any (fun q => q.1 == u) then m.map Prod.fst
      else m.map Prod.fst ++ [u] := by
  induction m with
  | nil => simp [addEntry]
  | cons p t ih =>
    obtain ⟨k, v⟩ := p
    simp only [addEntry, List.any_cons, List.map_cons]
    by_cases hk : (k == u) = true
    · rw [if_pos hk, if_pos (by simp [hk])]
      simp
    · rw [if_neg hk]
      simp only [List.map_cons]
      rw [ih]
      by_cases ha : (t.any fun q => q.1 == u) = true
      · rw [if_pos ha, if_pos (by simp [ha])]
      · rw [if_neg ha, if_neg (by simp [hk, ha])]
        simp

theorem foldl_addEntry_keys_nodup (es : List (String × String × Nat)) :
    ∀ m : List (String × List (String × Nat)), (m.map Prod.fst).Nodup →
      ((es.foldl (fun m e => addEntry m e.1 e.2) m).map Prod.fst).Nodup := by
  induction es with
  | nil => intro m hm; simpa using hm
  | cons e es ih =>
    intro m hm
    rw [List.foldl_cons]
    refine ih _ ?_
    rw [addEntry_keys]
    by_cases ha : m.any (fun q => q.1 == e.1) = true
    · rw [if_pos ha]
      exact hm
    · rw [if_neg ha]
      rw [List.nodup_append]
      refine ⟨hm, List.nodup_singleton _, ?_⟩
      intro a ha1 ha2
      rcases List.mem_singleton.mp ha2 with rfl
      rcases List.mem_map.mp ha1 with ⟨q, hq, hq1⟩
      have haf : (m.any fun q => q.1 == e.1) = false := Bool.eq_false_iff.mpr ha
      rw [List.any_eq_false] at haf
      exact haf q hq (by rw [hq1]; exact beq_self_eq_true e.1)

theorem lookupVal_addEntry (m : List (String × List (String × Nat))) (u : String)
    (e : String × Nat) (w : String) :
    lookupVal (addEntry m u e) w =
      if u == w then lookupVal m w ++ [e] else lookupVal m w := by
  induction m with
  | nil =>
    simp only [addEntry, lookupVal]
    by_cases huw : (u == w) = true
    · rw [if_pos huw, if_pos huw]
      rfl
    · rw [if_neg huw, if_neg huw]
  | cons p t ih =>
    obtain ⟨k, v⟩ := p
    simp only [addEntry]
    by_cases hku : (k == u) = true
    · rw [if_pos hku]
      have hk : k = u := eq_of_beq hku
      subst hk
      simp only [lookupVal]
      by_cases hw : (k == w) = true
      · rw [if_pos hw, if_pos hw, if_pos hw]
      · rw [if_neg hw, if_neg hw, if_neg hw]
    · rw [if_neg hku]
      simp only [lookupVal]
      by_cases hkw : (k == w) = true
      · have huw : (u == w) = false := by
          cases hu : (u == w)
          · rfl
          · exfalso
            have hetr : k = u := (eq_of_beq hkw).trans (eq_of_beq hu).symm
            exact hku (by rw [hetr]; exact beq_self_eq_true u)
        rw [if_pos hkw, huw]
        simp only [Bool.false_eq_true, if_false]
        rw [if_pos hkw]
      · rw [if_neg hkw, ih]
        by_cases huw : (u == w) = true
        · rw [if_pos huw, if_pos huw, if_neg hkw]
        · rw [if_neg huw, if_neg huw, if_neg hkw]

theorem lookupVal_foldl (es : List (String × String × Nat)) :
    ∀ (m : List (String × List (String × Nat))) (w : String),
      lookupVal (es.foldl (fun m e => addEntry m e.1 e.2) m) w =
        lookupVal m w ++ valuesFor w es := by
  induction es with
  | nil => intro m w; simp [valuesFor]
  | cons e es ih =>
    intro m w
    rw [List.foldl_cons, ih, lookupVal_addEntry]
    by_cases hw : (e.1 == w) = true
    · rw [if_pos hw]
      have hww : e.1 = w := eq_of_beq hw
      simp [valuesFor, List.filterMap_cons, hww]
    · rw [if_neg hw]
      have hww : ¬ e.1 = w := fun hh => hw (by rw [hh]; exact beq_self_eq_true w)
      simp [valuesFor, List.filterMap_cons, hww]

theorem mem_of_lookupVal (m : List (String × List (String × Nat))) (w : String)
    (h : lookupVal m w ≠ []) : (w, lookupVal m w) ∈ m := by
  induction m with
  | nil => exact absurd rfl h
  | cons p t ih =>
    obtain ⟨k, v⟩ := p
    simp only [lookupVal] at h ⊢
    by_cases hk : (k == w) = true
    · rw [if_pos hk]
      refine List.mem_cons.mpr (Or.inl ?_)
      rw [eq_of_beq hk]
    · rw [if_neg hk] at h ⊢
      exact List.mem_cons_of_mem _ (ih h)

theorem lookupVal_utility_breakpoints (classes : List String) (w : String) :
    lookupVal (utility_breakpoints classes) w = valuesFor w (allEntries classes) := by
  unfold utility_breakpoints groupEntries
  rw [lookupVal_foldl]
  simp [lookupVal]

theorem utility_breakpoints_keys_nodup (classes : List String) :
    ((utility_breakpoints classes).map Prod.fst).Nodup := by
  unfold utility_breakpoints groupEntries
  exact foldl_addEntry_keys_nodup _ [] (by simp)

theorem orderWarnUtils_sublist (class_str : String) :
    List.Sublist (orderWarnUtils class_str)
      ((utility_breakpoints (pySplit class_str)).map Prod.fst) := by
  unfold orderWarnUtils
  generalize utility_breakpoints (pySplit class_str) = m
  induction m with
  | nil => simp
  | cons p t ih =>
    rw [List.filterMap_cons, List.map_cons]
    by_cases hc : (decide (p.2.length > 1) && bpInversionScan p.2) = true
    · rw [if_pos hc]
      exact List.Sublist.cons₂ _ ih
    · rw [if_neg hc]
      exact List.Sublist.cons _ ih

/-! ### C7: position bridge and inversion lemmas -/

/-- The entries one token contributes when its position in the class list is
known to be `k` (under distinct tokens, `classes.index(cls)` is exactly the
token's position). -/
def entriesAt (k : Nat) (cls : String) : List (String × String × Nat) :=
  BREAKPOINT_ORDER.filterMap (fun bp =>
    if startsWithStr cls (bp ++ ":") then
      some (pyDrop cls (bp.length + 1), bp, k)
    else none)

/-- Entry stream with explicit positions. -/
def allEntriesIdx : Nat → List String → List (String × String × Nat)
  | _, [] => []
  | k, c :: cs => entriesAt k c ++ allEntriesIdx (k + 1) cs

theorem bpEntries_eq_entriesAt (classes : List String) (cls : String) :
    bpEntries classes cls = entriesAt (pyIndex cls classes) cls := rfl

theorem pyIndex_append (c : String) (pre rest : List String) (h : c ∉ pre) :
    pyIndex c (pre ++ c :: rest) = pre.length := by
  induction pre with
  | nil => simp [pyIndex]
  | cons p ps ih =>
    have hpc : (p == c) = false := by
      cases hb : (p == c)
      · rfl
      · exact absurd (by rw [eq_of_beq hb]; exact List.mem_cons_self c ps : c ∈ p :: ps)
          (by rw [← eq_of_beq hb] at h ⊢; exact h)
    simp only [List.cons_append, pyIndex, hpc, Bool.false_eq_true, if_false, List.length_cons]
    show pyIndex c (ps ++ c :: rest) + 1 = ps.length + 1
    rw [ih (fun hc => h (List.mem_cons_of_mem p hc))]

theorem allEntries_idx_aux (rest : List String) :
    ∀ pre : List String, (pre ++ rest).Nodup →
      rest.flatMap (bpEntries (pre ++ rest)) = allEntriesIdx pre.length rest := by
  induction rest with
  | nil => intro pre h; rfl
  | cons c cs ih =>
    intro pre h
    rw [List.flatMap_cons]
    have hcpre : c ∉ pre := by
      rcases List.nodup_append.mp h with ⟨_, _, hdisj⟩
      intro hcp
      exact hdisj hcp (List.mem_cons_self c cs)
    have h1 : bpEntries (pre ++ c :: cs) c = entriesAt pre.length c := by
      rw [bpEntries_eq_entriesAt, pyIndex_append c pre cs hcpre]
    have h2 : cs.flatMap (bpEntries (pre ++ c :: cs)) = allEntriesIdx (pre.length + 1) cs := by
      have hassoc : pre ++ c :: cs = (pre ++ [c]) ++ cs := by simp
      rw [hassoc]
      rw [hassoc] at h
      have := ih (pre ++ [c]) h
      simpa using this
    rw [h1, h2]
    rfl

theorem allEntries_eq_idx (classes : List String) (h : classes.Nodup) :
    allEntries classes = allEntriesIdx 0 classes := by
  have := allEntries_idx_aux classes [] (by simpa using h)
  simpa [allEntries] using this

theorem prefixB_eq (d : List Char) :
    ∀ p q : List Char, listPrefixB p d = true → listPrefixB q d = true →
      p.length = q.length → p = q := by
  induction d with
  | nil =>
    intro p q hp hq _
    cases p with
    | nil =>
      cases q with
      | nil => rfl
      | cons b bs => simp [listPrefixB] at hq
    | cons a as => simp [listPrefixB] at hp
  | cons c cs ih =>
    intro p q hp hq hl
    cases p with
    | nil =>
      cases q with
      | nil => rfl
      | cons b bs => simp at hl
    | cons a as =>
      cases q with
      | nil => simp at hl
      | cons b bs =>
        simp only [listPrefixB, Bool.and_eq_true] at hp hq
        have ha : a = c := eq_of_beq hp.1
        have hb : b = c := eq_of_beq hq.1
        have ht : as = bs := ih as bs hp.2 hq.2 (by simpa using hl)
        rw [ha, hb, ht]

theorem bpPrefixExclusive (cls a b : String) (ha : startsWithStr cls a = true)
    (hb : startsWithStr cls b = true) (hlen : a.data.length = b.data.length) :
    a.data = b.data :=
  prefixB_eq cls.data a.data b.data ha hb hlen

theorem entriesAt_pos (k : Nat) (cls : String) :
    ∀ e ∈ entriesAt k cls, e.2.2 = k := by
  intro e he
  rcases List.mem_filterMap.mp he with ⟨bp, _, hbp⟩
  by_cases hc : startsWithStr cls (bp ++ ":") = true
  · rw [if_pos hc] at hbp
    cases hbp
    rfl
  · rw [if_neg hc] at hbp
    cases hbp

theorem entriesAt_len (k : Nat) (cls : String) : (entriesAt k cls).length ≤ 1 := by
  unfold entriesAt BREAKPOINT_ORDER
  cases h1 : startsWithStr cls "sm:" <;>
    cases h2 : startsWithStr cls "md:" <;>
      cases h3 : startsWithStr cls "lg:" <;>
        cases h4 : startsWithStr cls "xl:" <;>
          simp [List.filterMap_cons, h1, h2, h3, h4]
  all_goals
    first
      | exact absurd (bpPrefixExclusive cls _ _ h1 h2 (by decide)) (by decide)
      | exact absurd (bpPrefixExclusive cls _ _ h1 h3 (by decide)) (by decide)
      | exact absurd (bpPrefixExclusive cls _ _ h1 h4 (by decide)) (by decide)
      | exact absurd (bpPrefixExclusive cls _ _ h2 h3 (by decide)) (by decide)
      | exact absurd (bpPrefixExclusive cls _ _ h2 h4 (by decide)) (by decide)
      | exact absurd (bpPrefixExclusive cls _ _ h3 h4 (by decide)) (by decide)

theorem valuesFor_append (w : String) (es fs : List (String × String × Nat)) :
    valuesFor w (es ++ fs) = valuesFor w es ++ valuesFor w fs := by
  simp [valuesFor, List.filterMap_append]

theorem mem_valuesFor {w : String} {es : List (String × String × Nat)}
    {a : String × Nat} (h : a ∈ valuesFor w es) : ∃ e ∈ es, e.2 = a := by
  rcases List.mem_filterMap.mp h with ⟨e, he, hfe⟩
  by_cases hc : (e.1 == w) = true
  · rw [if_pos hc] at hfe
    cases hfe
    exact ⟨e, he, rfl⟩
  · rw [if_neg hc] at hfe
    cases hfe

theorem allEntriesIdx_pos_lb (cl : List String) :
    ∀ (k : Nat) (e : String × String × Nat), e ∈ allEntriesIdx k cl → k ≤ e.2.2 := by
  induction cl with
  | nil =>
    intro k e he
    exact absurd he (List.not_mem_nil e)
  | cons c cs ih =>
    intro k e he
    simp only [allEntriesIdx] at he
    rcases List.mem_append.mp he with h | h
    · exact Nat.le_of_eq (entriesAt_pos k c e h).symm
    · exact Nat.le_trans (Nat.le_succ k) (ih (k + 1) e h)

theorem pairwise_of_len_le_one {α : Type} {R : α → α → Prop} {l : List α}
    (h : l.length ≤ 1) : List.Pairwise R l := by
  cases l with
  | nil => exact List.Pairwise.nil
  | cons a t =>
    cases t with
    | nil => simp
    | cons b t2 => simp at h

theorem pairwise_valuesFor_idx (cl : List String) :
    ∀ (k : Nat) (u : String),
      List.Pairwise (fun a b : String × Nat => a.2 < b.2)
        (valuesFor u (allEntriesIdx k cl)) := by
  induction cl with
  | nil => intro k u; simp [allEntriesIdx, valuesFor]
  | cons c cs ih =>
    intro k u
    simp only [allEntriesIdx]
    rw [valuesFor_append, List.pairwise_append]
    refine ⟨?_, ih (k + 1) u, ?_⟩
    · refine pairwise_of_len_le_one (Nat.le_trans ?_ (entriesAt_len k c))
      exact List.length_filterMap_le _ _
    · intro a ha b hb
      rcases mem_valuesFor ha with ⟨e1, he1, rfl⟩
      rcases mem_valuesFor hb with ⟨e2, he2, rfl⟩
      have hp1 : e1.2.2 = k := entriesAt_pos k c e1 he1
      have hp2 : k + 1 ≤ e2.2.2 := allEntriesIdx_pos_lb cs (k + 1) e2 he2
      show e1.2.2 < e2.2.2
      omega

/-- The per-utility entry list recorded for `u` on one class string: the
`(breakpoint, recorded position)` pairs in token-appearance order. -/
def utilEntries (class_str u : String) : List (String × Nat) :=
  valuesFor u (allEntries (pySplit class_str))

theorem bpScan_of_not_chain (vs : List (String × Nat))
    (hp : List.Pairwise (fun a b : String × Nat => a.2 < b.2) vs)
    (h : ¬ List.Chain' (fun a b : String × Nat => rankOf a.1 ≤ rankOf b.1) vs) :
    bpInversionScan vs = true := by
  induction vs with
  | nil => exact absurd List.chain'_nil h
  | cons e1 rest ih =>
    cases rest with
    | nil => exact absurd (List.chain'_singleton e1) h
    | cons e2 t =>
      rw [List.chain'_cons] at h
      have hpos : e1.2 < e2.2 :=
        (List.pairwise_cons.mp hp).1 e2 (List.mem_cons_self e2 t)
      by_cases hr : rankOf e1.1 ≤ rankOf e2.1
      · have hnc : ¬ List.Chain' (fun a b : String × Nat => rankOf a.1 ≤ rankOf b.1)
            (e2 :: t) := fun hcc => h ⟨hr, hcc⟩
        have hs := ih (List.pairwise_cons.mp hp).2 hnc
        simp [bpInversionScan, hs]
      · have hlt : rankOf e2.1 < rankOf e1.1 := Nat.lt_of_not_le hr
        simp [bpInversionScan, hlt, hpos]

theorem not_pairwise_of_inversion {vs : List (String × Nat)}
    (hinv : ∃ (i j : Nat) (hi : i < vs.length) (hj : j < vs.length), i < j ∧
      rankOf (vs.get ⟨j, hj⟩).1 < rankOf (vs.get ⟨i, hi⟩).1) :
    ¬ List.Pairwise (fun a b : String × Nat => rankOf a.1 ≤ rankOf b.1) vs := by
  intro hp
  obtain ⟨i, j, hi, hj, hij, hrank⟩ := hinv
  have := List.pairwise_iff_get.mp hp ⟨i, hi⟩ ⟨j, hj⟩ (Fin.mk_lt_mk.mpr hij)
  omega

theorem not_chain_of_not_pairwise {vs : List (String × Nat)}
    (h : ¬ List.Pairwise (fun a b : String × Nat => rankOf a.1 ≤ rankOf b.1) vs) :
    ¬ List.Chain' (fun a b : String × Nat => rankOf a.1 ≤ rankOf b.1) vs := by
  intro hc
  haveI : IsTrans (String × Nat) (fun a b : String × Nat => rankOf a.1 ≤ rankOf b.1) :=
    ⟨fun _ _ _ h1 h2 => Nat.le_trans h1 h2⟩
  exact h (List.chain'_iff_pairwise.mp hc)

theorem orderMsg_inj {x u : String} (h : orderMsg x = orderMsg u) : x = u := by
  unfold orderMsg at h
  have hd := congrArg String.data h
  simp only [String.data_append, List.append_assoc] at hd
  have h2 := List.append_cancel_left hd
  have h3 := List.append_cancel_right h2
  exact string_data_inj h3

/-- C7: on a token group whose whitespace-split tokens are pairwise
distinct, for each base utility carrying more than one breakpoint prefix
with a later-appearing token of strictly smaller rank than an
earlier-appearing one, exactly one `breakpoint_order` Warning is emitted
for that utility — never two or more.  (With a repeated identical token the
recorded positions collapse to the first occurrence and the warning can be
missed; see the counterexample.) -/
theorem c7_breakpoint_order_once (class_str u : String)
    (hnd : (pySplit class_str).Nodup)
    (hinv : ∃ (i j : Nat) (hi : i < (utilEntries class_str u).length)
        (hj : j < (utilEntries class_str u).length), i < j ∧
        rankOf ((utilEntries class_str u).get ⟨j, hj⟩).1 <
          rankOf ((utilEntries class_str u).get ⟨i, hi⟩).1) :
    (orderWarnUtils class_str).count u = 1 ∧
    ∀ (line_num : Nat) (file_path line : String),
      (check_breakpoint_order class_str line_num file_path line).countP
        (fun v => v.message == orderMsg u) = 1 := by
  have hlen2 : 2 ≤ (utilEntries class_str u).length := by
    obtain ⟨i, j, hi, hj, hij, _⟩ := hinv
    omega
  have hpair : List.Pairwise (fun a b : String × Nat => a.2 < b.2)
      (utilEntries class_str u) := by
    unfold utilEntries
    rw [allEntries_eq_idx _ hnd]
    exact pairwise_valuesFor_idx _ 0 u
  have hscan : bpInversionScan (utilEntries class_str u) = true :=
    bpScan_of_not_chain _ hpair
      (not_chain_of_not_pairwise (not_pairwise_of_inversion hinv))
  have hlookup : lookupVal (utility_breakpoints (pySplit class_str)) u =
      utilEntries class_str u := lookupVal_utility_breakpoints _ u
  have hne : utilEntries class_str u ≠ [] := by
    intro hnil
    rw [hnil] at hlen2
    simp at hlen2
  have hmem : (u, utilEntries class_str u) ∈ utility_breakpoints (pySplit class_str) := by
    have hm := mem_of_lookupVal (utility_breakpoints (pySplit class_str)) u
      (by rw [hlookup]; exact hne)
    rwa [hlookup] at hm
  have humem : u ∈ orderWarnUtils class_str := by
    unfold orderWarnUtils
    refine List.mem_filterMap.mpr ⟨(u, utilEntries class_str u), hmem, ?_⟩
    have hcond : (decide ((utilEntries class_str u).length > 1) &&
        bpInversionScan (utilEntries class_str u)) = true := by
      rw [hscan]
      simp only [Bool.and_true, decide_eq_true_eq]
      omega
    simp only [hcond, if_true]
  have hle : (orderWarnUtils class_str).count u ≤ 1 := by
    have hsub := orderWarnUtils_sublist class_str
    have hnd2 := utility_breakpoints_keys_nodup (pySplit class_str)
    exact Nat.le_trans (hsub.count_le u) (List.nodup_iff_count_le_one.mp hnd2 u)
  have hge : 1 ≤ (orderWarnUtils class_str).count u := List.count_pos_iff.mpr humem
  have hcount : (orderWarnUtils class_str).count u = 1 := Nat.le_antisymm hle hge
  refine ⟨hcount, fun line_num file_path line => ?_⟩
  unfold check_breakpoint_order
  rw [List.countP_map]
  have hcongr : (orderWarnUtils class_str).countP
      ((fun v : Violation => v.message == orderMsg u) ∘ (fun x =>
        { file_path := file_path, line_number := line_num,
          category := Category.breakpoint_compliance, severity := Severity.warning,
          rule := "breakpoint_order", snippet := pyTake class_str 80,
          message := orderMsg x })) =
      (orderWarnUtils class_str).countP (fun x => x == u) := by
    refine List.countP_congr (fun x _ => ?_)
    show ((orderMsg x == orderMsg u) = true ↔ (x == u) = true)
    constructor
    · intro hb
      exact beq_iff_eq.mpr (orderMsg_inj (beq_iff_eq.mp hb))
    · intro hb
      exact beq_iff_eq.mpr (congrArg orderMsg (beq_iff_eq.mp hb))
  rw [hcongr]
  exact hcount

/-- C7 counterexample: with the duplicated token in
`"sm:flex lg:flex sm:flex"` the recorded positions collapse to the first
occurrence, so although a later-appearing `sm:flex` (rank 0) follows an
earlier `lg:flex` (rank 2) for the same utility, no `breakpoint_order`
warning at all is emitted — the claim's universal reading fails. -/
theorem c7_duplicate_token_cx :
    utilEntries "sm:flex lg:flex sm:flex" "flex" = [("sm", 0), ("lg", 1), ("sm", 0)] ∧
    rankOf "sm" < rankOf "lg" ∧
    (orderWarnUtils "sm:flex lg:flex sm:flex").count "flex" = 0 ∧
    check_breakpoint_order "sm:flex lg:flex sm:flex" 1 "f" "" = [] := by
  refine ⟨by decide, by decide, by decide, by decide⟩

/-- C7 witness: the theorem applied to the spec's own test vector
`"lg:flex sm:flex"`. -/
theorem c7_witness :
    (orderWarnUtils "lg:flex sm:flex").count "flex" = 1 ∧
    (check_breakpoint_order "lg:flex sm:flex" 3 "f" "x").countP
      (fun v => v.message == orderMsg "flex") = 1 := by
  have h := c7_breakpoint_order_once "lg:flex sm:flex" "flex" (by decide)
    ⟨0, 1, by decide, by decide, by decide, by decide⟩
  exact ⟨h.1, h.2 3 "f" "x"⟩
